import Mathlib

/-!
Verification of the evaluation-and-fine-tuning pipeline of the
sentiment-analysis notebook (`finetune.ipynb`).

The notebook is a linear pipeline: environment check, baseline inference,
dataset acquisition and split, baseline evaluation (accuracy overall and
per label), tokenization, fine-tuning configuration, post-training
evaluation, persistence.  The definitions below embed the notebook's own
procedural logic; parts that live inside external libraries (the dataset
splitter, the tokenizer) are modelled from the specification, as marked in
their doc comments.  Definitions come first, then the theorems.
-/

namespace SentimentPipeline

/-! ## Definitions: scorer / metric aggregator

Embedding of the baseline-evaluation cells: `results_df` rows carry
text, true label, predicted label, confidence score; the `Correct`
column is `results_df["label"].eq(results_df["pred"])`; overall accuracy
is `len(results_df[results_df["Correct"] == True]) / len(results_df)`;
the per-label table is
`pd.concat([value_counts, groupby("label")["Correct"].mean().mul(100).round(2)])`.
-/

/-- Evaluation result row, mirroring the columns of `results_df`:
{text, true label, predicted label, confidence score}. -/
structure ResultRow where
  text : String
  label : String
  pred : String
  score : ℚ
deriving DecidableEq

/-- The `Correct` column: `results_df["label"].eq(results_df["pred"])`. -/
def isCorrect (r : ResultRow) : Bool := r.label == r.pred

/-- Overall accuracy, from
`accuracy = len(results_df[results_df["Correct"] == True]) / len(results_df)`.
Python raises `ZeroDivisionError` when `len(results_df) = 0`, embedded here
as `none`. -/
def accuracy (rows : List ResultRow) : Option ℚ :=
  if rows.length = 0 then none
  else some ((rows.countP isCorrect : ℚ) / (rows.length : ℚ))

/-- The group of rows with a given true label, as formed by
`results_df.groupby("label")`. -/
def groupRows (rows : List ResultRow) (c : String) : List ResultRow :=
  rows.filter (fun r => r.label == c)

/-- Mean of the `Correct` column over one group, from
`results_df.groupby("label")["Correct"].mean()`: the mean of a boolean
column is (number true) / (group size), undefined (pandas: absent row,
0/0) when the group is empty. -/
def groupMeanCorrect (rows : List ResultRow) (c : String) : Option ℚ :=
  if (groupRows rows c).length = 0 then none
  else some (((groupRows rows c).countP isCorrect : ℚ) / ((groupRows rows c).length : ℚ))

/-- Round half to even (banker's rounding), the rounding used by
`pandas.Series.round`. -/
def roundHalfEven (q : ℚ) : ℤ :=
  if q - (⌊q⌋ : ℚ) < 1/2 then ⌊q⌋
  else if (1:ℚ)/2 < q - (⌊q⌋ : ℚ) then ⌊q⌋ + 1
  else if ⌊q⌋ % 2 = 0 then ⌊q⌋ else ⌊q⌋ + 1

/-- Rounding to two decimal places, as `pandas.Series.round(2)`. -/
def pdRound2 (q : ℚ) : ℚ := (roundHalfEven (q * 100) : ℚ) / 100

/-- The per-label accuracy table `accuracy_df`:
`pd.concat([results_df["label"].value_counts(), results_df.groupby("label")["Correct"].mean().mul(100).round(2)], axis=1)`
with columns renamed to Label, Count, Accuracy.  Both frames are indexed by
exactly the label values present in `results_df`, so the concat (which
aligns on the index) has one row per distinct label present; row order is
abstracted (the embedding uses order of `List.dedup`). -/
def accuracy_df (rows : List ResultRow) : List (String × ℕ × ℚ) :=
  ((rows.map (fun r => r.label)).dedup).map (fun c =>
    (c, (groupRows rows c).length,
      pdRound2 ((((groupRows rows c).countP isCorrect : ℚ) / ((groupRows rows c).length : ℚ)) * 100)))

/-- Modelled from the spec: "per-label accuracy = mean correctness
restricted to rows where true label equals that category" — the
correctness flag of one row, 1 when predicted equals true. -/
def correctFlag (r : ResultRow) : ℚ := if r.label = r.pred then 1 else 0

/-- Modelled from the spec: the mean of the correctness flags restricted
to rows whose true label equals the category. -/
def specPerLabelMean (rows : List ResultRow) (c : String) : ℚ :=
  ((rows.filter (fun r => r.label == c)).map correctFlag).sum /
    ((rows.filter (fun r => r.label == c)).length : ℚ)

/-- The example rows of the spec scenario, as (true label, predicted
label) pairs [(pos,pos), (neg,pos), (neg,neg)]. -/
def exampleRows : List ResultRow :=
  [ { text := "t1", label := "pos", pred := "pos", score := 9/10 },
    { text := "t2", label := "neg", pred := "pos", score := 8/10 },
    { text := "t3", label := "neg", pred := "neg", score := 7/10 } ]

/-! ## Definitions: environment check

Embedding of the accelerator-availability cell:
`if torch.cuda.is_available(): print(...) else: print(...)` followed
unconditionally by `enable_full_determinism(True)`.  Neither branch
raises or halts, so control always reaches the rest of the pipeline. -/

/-- Message printed when the accelerator is available. -/
def gpuAvailableMsg : String := "GPU acceleration is available!"

/-- Warning printed when the accelerator is unavailable. -/
def gpuWarningMsg : String :=
  "GPU acceleration is NOT available! Training, fine-tuning, and inference speed will be adversely impacted."

/-- The environment-check step: given whether `torch.cuda.is_available()`,
returns the lines printed and whether execution continues to the next
statement (`enable_full_determinism(True)`); both branches of the source
conditional only print, so both continue. -/
def envCheckStep (cudaAvailable : Bool) : List String × Bool :=
  if cudaAvailable then ([gpuAvailableMsg], true) else ([gpuWarningMsg], true)

/-! ## Definitions: fine-tuning driver configuration

Embedding of the `TrainingArguments(...)` and `Trainer(...)` cell.  The
values are the keyword arguments fixed at invocation in the source; the
`Trainer` is constructed with model, tokenizer, args, train/eval datasets
and `compute_metrics` only — its callbacks list is empty:
`EarlyStoppingCallback` is imported at the top of the notebook but never
instantiated or attached. -/

/-- The training-argument record, mirroring the fields set in the source's
`TrainingArguments(...)` call. -/
structure TrainingArgs where
  output_dir : String
  evaluation_strategy : String
  learning_rate : ℚ
  per_device_train_batch_size : ℕ
  per_device_eval_batch_size : ℕ
  num_train_epochs : ℕ
  weight_decay : ℚ
  metric_for_best_model : String
  save_total_limit : ℕ
  save_strategy : String
  load_best_model_at_end : Bool
  optim : String
deriving DecidableEq

/-- The source's `metric_choice = "f1"`. -/
def metric_choice : String := "f1"

/-- The averaging mode passed by `compute_metrics` to `METRIC.compute`:
`average="weighted"`, making the selection metric a weighted F1. -/
def computeMetricsAverage : String := "weighted"

/-- The `TrainingArguments` constructed in the fine-tuning cell. -/
def args : TrainingArgs :=
  { output_dir := "temp/"
    evaluation_strategy := "steps"
    learning_rate := 0.00001
    per_device_train_batch_size := 32
    per_device_eval_batch_size := 32
    num_train_epochs := 1
    weight_decay := 0.01
    metric_for_best_model := metric_choice
    save_total_limit := 2
    save_strategy := "steps"
    load_best_model_at_end := true
    optim := "adamw_torch" }

/-- The callbacks attached to the `Trainer(...)` call: none are passed. -/
def trainerCallbacks : List String := []

/-- The configuration contents asserted by claim C3: every listed item is
present, including a steps-based evaluate/save cadence, weighted F1 as the
selection metric, reload-best-at-end, and an early-stopping policy. -/
def claimedTrainingConfig : Prop :=
  args.learning_rate = 1/100000 ∧
    args.per_device_train_batch_size = 32 ∧
    args.per_device_eval_batch_size = 32 ∧
    args.num_train_epochs = 1 ∧
    args.weight_decay = 1/100 ∧
    (args.evaluation_strategy = "steps" ∧ args.save_strategy = "steps") ∧
    args.save_total_limit = 2 ∧
    (args.metric_for_best_model = metric_choice ∧ metric_choice = "f1" ∧
      computeMetricsAverage = "weighted") ∧
    args.load_best_model_at_end = true ∧
    "EarlyStoppingCallback" ∈ trainerCallbacks

/-! ## Definitions: tokenization mapper

Embedding of `preprocess_function`, which calls
`tokenizer(examples["text"], truncation=True, padding=False, max_length=512)`
and is mapped over the dataset by `ds.map(partial(preprocess_function, tokenizer))`.
The tokenizer itself is external; it is abstracted as an arbitrary map
from a string to a token sequence. -/

/-- Review record: {text, label}, label encoded 0 = negative, 1 = positive. -/
structure Review where
  text : String
  label : ℕ
deriving DecidableEq

/-- The fixed maximum token length: `max_length=512` ("512 because we use
BERT"). -/
def maxTokenLength : ℕ := 512

/-- Modelled from the spec: the external tokenizer's encoding of a text is
some token sequence `tok text`; with `truncation=True, max_length=512` the
encoding keeps at most the first `max_length` tokens of it, and with
`padding=False` nothing is appended. -/
def tokenizeTruncate (tok : String → List ℕ) (text : String) : List ℕ :=
  (tok text).take maxTokenLength

/-- Tokenized record: a review record augmented with the integer input
fields produced by the tokenizer. -/
structure TokenizedReview where
  text : String
  label : ℕ
  input_ids : List ℕ
deriving DecidableEq

/-- One application of the tokenization mapper to a record, as `ds.map`
merges the returned encoding into the record: `preprocess_function` reads
only `examples["text"]` and the map overwrites the `input_ids` field,
leaving text and label untouched. -/
def preprocess_function (tok : String → List ℕ) (r : TokenizedReview) : TokenizedReview :=
  { r with input_ids := tokenizeTruncate tok r.text }

/-- The mapping step `ds = ds.map(partial(preprocess_function, tokenizer))`
over one split. -/
def tokenizeDataset (tok : String → List ℕ) (rows : List Review) : List TokenizedReview :=
  rows.map (fun r => { text := r.text, label := r.label, input_ids := tokenizeTruncate tok r.text })

/-! ## Definitions: dataset splitter

The source's split cell is
`ds_train_val = ds["train"].train_test_split(test_size=0.1, seed=42, stratify_by_column="label")`
followed by `ds["train"] = ds_train_val["train"]` and
`ds["validation"] = ds_train_val["test"]`; `ds["test"]` is never
reassigned.  `train_test_split` lives in the external datasets library, so
it is modelled from the spec ("stratified random split of the train
partition into (new-train, validation) using a fixed proportion and a
fixed random seed so the split is reproducible across runs") as a pure
function of (proportion, seed, rows) producing a partition of the row
indices: indices are grouped by label (the strata), each stratum is given
a seed-determined permutation, the validation size ⌈test_size·n⌉ is
apportioned over the strata proportionally, and each stratum contributes
its first allocated indices to the validation part and the rest to the
new train part. -/

/-- Modelled from the spec: the seed-determined permutation a stratum's
indices undergo before being cut; the library's shuffle is opaque, so it is
modelled as a rotation determined entirely by the seed and the input. -/
def seededPerm (seed : ℕ) (l : List ℕ) : List ℕ :=
  l.drop (seed % (l.length + 1)) ++ l.take (seed % (l.length + 1))

/-- The distinct label values present in the partition being split — the
strata of `stratify_by_column="label"`. -/
def labelValues (rows : List Review) : List ℕ :=
  (rows.map (fun r => r.label)).dedup

/-- The indices of the rows of one stratum. -/
def labelIndices (rows : List Review) (c : ℕ) : List ℕ :=
  (rows.enum.filter (fun q => q.2.label == c)).map Prod.fst

/-- Hand out `r` extra units across (base, cap) pairs, never exceeding a
cap. -/
def addExtra : List (ℕ × ℕ) → ℕ → List ℕ
  | [], _ => []
  | q :: rest, r => (q.1 + min r (q.2 - q.1)) :: addExtra rest (r - min r (q.2 - q.1))

/-- Modelled from the spec: a stratified splitter draws from every stratum
in proportion; the validation size `k` is apportioned over the strata by
flooring each stratum's proportional share `size·k/n` and distributing the
remainder without exceeding any stratum's size. -/
def allocateVal (sizes : List ℕ) (k n : ℕ) : List ℕ :=
  addExtra ((sizes.map (fun s => s * k / n)).zip sizes) (k - (sizes.map (fun s => s * k / n)).sum)

/-- The number of rows drawn into the validation ("test") part:
⌈test_size·n⌉ of the n rows being split. -/
def valSize (test_size : ℚ) (n : ℕ) : ℕ := (Int.ceil (test_size * (n : ℚ))).toNat

/-- The strata of the split after their seeded permutations. -/
def strataPerm (seed : ℕ) (rows : List Review) : List (List ℕ) :=
  (labelValues rows).map (fun c => seededPerm seed (labelIndices rows c))

/-- The per-stratum validation allocation. -/
def strataAllocs (test_size : ℚ) (seed : ℕ) (rows : List Review) : List ℕ :=
  allocateVal ((strataPerm seed rows).map List.length) (valSize test_size rows.length) rows.length

/-- Modelled from the spec: `train_test_split(test_size, seed,
stratify_by_column="label")` as an index partition (new-train indices,
validation indices); each permuted stratum contributes its first allocated
indices to the validation part and the remainder to the new train part. -/
def train_test_split (test_size : ℚ) (seed : ℕ) (rows : List Review) : List ℕ × List ℕ :=
  ((((strataPerm seed rows).zip (strataAllocs test_size seed rows)).map
      (fun q => q.1.drop q.2)).flatten,
   (((strataPerm seed rows).zip (strataAllocs test_size seed rows)).map
      (fun q => q.1.take q.2)).flatten)

/-- Modelled from the spec: the splitter with the library's ambient random
generator made explicit — when a seed argument is supplied (as in the
source, `seed=42`) the generator is re-seeded with it and the ambient
state is unused; only without a seed would the ambient state be consumed. -/
def trainTestSplitRng (test_size : ℚ) (seed : Option ℕ) (rows : List Review)
    (ambientRng : ℕ) : List ℕ × List ℕ :=
  train_test_split test_size (seed.getD ambientRng) rows

/-- The fixed split proportion of the source call: `test_size=0.1`, i.e. a
90/10 split. -/
def splitProportion : ℚ := 0.1

/-- The fixed seed of the source call: `seed=42`. -/
def splitSeed : ℕ := 42

/-- The named partitions {train, validation, test} of the dataset dict. -/
structure DatasetSplits where
  train : List Review
  validation : List Review
  test : List Review
deriving DecidableEq

/-- Selecting the rows of a partition at the given indices
(`Dataset.select`). -/
def selectRows (rows : List Review) (idx : List ℕ) : List Review :=
  idx.filterMap (fun i => rows.get? i)

/-- The dataset-split step of the pipeline:
`ds["train"] = ds_train_val["train"]; ds["validation"] = ds_train_val["test"]`,
with `ds["test"]` left untouched. -/
def splitStep (ds : DatasetSplits) : DatasetSplits :=
  { train := selectRows ds.train (train_test_split splitProportion splitSeed ds.train).1
    validation := selectRows ds.train (train_test_split splitProportion splitSeed ds.train).2
    test := ds.test }

/-! ## Theorems: helper lemmas -/

theorem sum_correctFlag (l : List ResultRow) :
    (l.map correctFlag).sum = (l.countP isCorrect : ℚ) := by
  induction l with
  | nil => simp
  | cons a t ih =>
      simp only [List.map_cons, List.sum_cons, List.countP_cons, ih, correctFlag, isCorrect,
        beq_iff_eq]
      split <;> simp_all
      ring

theorem seededPerm_perm (seed : ℕ) (l : List ℕ) : (seededPerm seed l).Perm l := by
  unfold seededPerm
  exact List.perm_append_comm.trans (by rw [List.take_append_drop])

theorem length_seededPerm (seed : ℕ) (l : List ℕ) : (seededPerm seed l).length = l.length :=
  (seededPerm_perm seed l).length_eq

theorem flatten_filter_perm {α : Type} (key : α → ℕ) :
    ∀ (ks : List ℕ) (l : List α), ks.Nodup → (∀ x ∈ l, key x ∈ ks) →
      ((ks.map (fun c => l.filter (fun x => key x == c))).flatten).Perm l := by
  intro ks
  induction ks with
  | nil =>
      intro l _ hcov
      have hl : l = [] :=
        List.eq_nil_iff_forall_not_mem.mpr (fun x hx => by simpa using hcov x hx)
      subst hl
      simp
  | cons c ks ih =>
      intro l hnd hcov
      simp only [List.map_cons, List.flatten_cons]
      have hrest : ks.map (fun d => l.filter (fun x => key x == d)) =
          ks.map (fun d => (l.filter (fun x => !(key x == c))).filter (fun x => key x == d)) := by
        refine List.map_congr_left (fun d hd => ?_)
        rw [List.filter_filter]
        refine (List.filter_congr (fun x hx => ?_)).symm
        have hdc : d ≠ c := fun h => (List.nodup_cons.mp hnd).1 (h ▸ hd)
        by_cases hk : key x = d
        · simp [hk, beq_iff_eq, hdc]
        · simp [hk, beq_iff_eq]
      rw [hrest]
      have hcov' : ∀ x ∈ l.filter (fun x => !(key x == c)), key x ∈ ks := by
        intro x hx
        obtain ⟨hxl, hxc⟩ := List.mem_filter.mp hx
        have hm := hcov x hxl
        simp only [List.mem_cons] at hm
        rcases hm with h | h
        · exfalso; simp [h, beq_iff_eq] at hxc
        · exact h
      have hperm := ih (l.filter (fun x => !(key x == c))) (List.nodup_cons.mp hnd).2 hcov'
      exact (List.Perm.append_left _ hperm).trans (List.filter_append_perm _ l)

theorem labelIndices_flatten_perm (rows : List Review) :
    (((labelValues rows).map (fun c => labelIndices rows c)).flatten).Perm
      (List.range rows.length) := by
  have hcov : ∀ x ∈ rows.enum, (fun q : ℕ × Review => q.2.label) x ∈ labelValues rows := by
    intro x hx
    have hx2 : x.2 ∈ rows := by
      rw [List.enum_eq_zip_range] at hx
      rcases x with ⟨i, r⟩
      exact (List.of_mem_zip hx).2
    exact List.mem_dedup.mpr (List.mem_map.mpr ⟨x.2, hx2, rfl⟩)
  have hperm := flatten_filter_perm (fun q : ℕ × Review => q.2.label) (labelValues rows)
      rows.enum (List.nodup_dedup _) hcov
  have hmap := hperm.map Prod.fst
  rw [List.map_flatten, List.map_map, List.enum_map_fst] at hmap
  exact hmap

theorem forall₂_map_perm {f g : ℕ → List ℕ} (h : ∀ c, (f c).Perm (g c)) :
    ∀ ks : List ℕ, List.Forall₂ (fun a b => a.Perm b) (ks.map f) (ks.map g)
  | [] => List.Forall₂.nil
  | c :: t => List.Forall₂.cons (h c) (forall₂_map_perm h t)

theorem forall₂_perm_flatten {l₁ l₂ : List (List ℕ)}
    (h : List.Forall₂ (fun a b => List.Perm a b) l₁ l₂) : l₁.flatten.Perm l₂.flatten := by
  induction h with
  | nil => exact List.Perm.refl _
  | cons h1 _ ih =>
      simp only [List.flatten_cons]
      exact h1.append ih

theorem strataPerm_flatten_perm (seed : ℕ) (rows : List Review) :
    ((strataPerm seed rows).flatten).Perm (List.range rows.length) := by
  have h1 : List.Forall₂ (fun a b => List.Perm a b) (strataPerm seed rows)
      ((labelValues rows).map (fun c => labelIndices rows c)) :=
    forall₂_map_perm (fun c => seededPerm_perm seed (labelIndices rows c)) (labelValues rows)
  exact (forall₂_perm_flatten h1).trans (labelIndices_flatten_perm rows)

theorem strata_sizes_sum (seed : ℕ) (rows : List Review) :
    ((strataPerm seed rows).map List.length).sum = rows.length := by
  rw [← List.length_flatten]
  rw [(strataPerm_flatten_perm seed rows).length_eq, List.length_range]

theorem append_exchange_perm (a b c d : List ℕ) :
    ((a ++ b) ++ (c ++ d)).Perm ((a ++ c) ++ (b ++ d)) := by
  have h1 : ((a ++ b) ++ (c ++ d)) = a ++ (b ++ (c ++ d)) := by simp [List.append_assoc]
  have h2 : ((a ++ c) ++ (b ++ d)) = a ++ (c ++ (b ++ d)) := by simp [List.append_assoc]
  rw [h1, h2]
  refine List.Perm.append_left a ?_
  have h3 : (b ++ (c ++ d)) = (b ++ c) ++ d := by simp [List.append_assoc]
  have h4 : (c ++ (b ++ d)) = (c ++ b) ++ d := by simp [List.append_assoc]
  rw [h3, h4]
  exact List.Perm.append_right d List.perm_append_comm

theorem flatten_drop_take_perm : ∀ (ps : List (List ℕ × ℕ)),
    ((ps.map (fun q => q.1.drop q.2)).flatten ++ (ps.map (fun q => q.1.take q.2)).flatten).Perm
      ((ps.map (fun q => q.1)).flatten)
  | [] => List.Perm.refl _
  | (g, a) :: rest => by
      simp only [List.map_cons, List.flatten_cons]
      have ih := flatten_drop_take_perm rest
      have hg : (g.drop a ++ g.take a).Perm g :=
        List.perm_append_comm.trans (by rw [List.take_append_drop])
      exact (append_exchange_perm _ _ _ _).trans (hg.append ih)

theorem addExtra_length : ∀ (ps : List (ℕ × ℕ)) (r : ℕ), (addExtra ps r).length = ps.length
  | [], _ => rfl
  | q :: rest, r => by
      simp only [addExtra, List.length_cons, addExtra_length rest]

theorem addExtra_le : ∀ (ps : List (ℕ × ℕ)) (r : ℕ), (∀ q ∈ ps, q.1 ≤ q.2) →
    List.Forall₂ (fun a b => a ≤ b) (addExtra ps r) (ps.map (fun q => q.2))
  | [], _, _ => List.Forall₂.nil
  | q :: rest, r, h => by
      simp only [addExtra, List.map_cons]
      refine List.Forall₂.cons ?_
        (addExtra_le rest _ (fun p hp => h p (List.mem_cons_of_mem _ hp)))
      have hq := h q (List.mem_cons_self _ _)
      omega

theorem addExtra_sum : ∀ (ps : List (ℕ × ℕ)) (r : ℕ), (∀ q ∈ ps, q.1 ≤ q.2) →
    (ps.map (fun q => q.1)).sum + r ≤ (ps.map (fun q => q.2)).sum →
    (addExtra ps r).sum = (ps.map (fun q => q.1)).sum + r
  | [], r, _, hr => by
      simp only [List.map_nil, List.sum_nil] at hr ⊢
      simp [addExtra]
      omega
  | q :: rest, r, h, hr => by
      simp only [addExtra, List.map_cons, List.sum_cons] at hr ⊢
      have hq := h q (List.mem_cons_self _ _)
      have hrest : ∀ p ∈ rest, p.1 ≤ p.2 := fun p hp => h p (List.mem_cons_of_mem _ hp)
      have hmono : (rest.map (fun q => q.1)).sum ≤ (rest.map (fun q => q.2)).sum :=
        List.sum_le_sum (fun p hp => hrest p hp)
      have hih := addExtra_sum rest (r - min r (q.2 - q.1)) hrest (by omega)
      rw [hih]
      omega

theorem sum_div_le (n : ℕ) : ∀ (l : List ℕ), (l.map (fun a => a / n)).sum ≤ l.sum / n
  | [] => by simp
  | a :: t => by
      simp only [List.map_cons, List.sum_cons]
      have h1 := sum_div_le n t
      have h2 : a / n + t.sum / n ≤ (a + t.sum) / n := by
        rcases Nat.eq_zero_or_pos n with hn | hn
        · simp [hn]
        · rw [Nat.le_div_iff_mul_le hn]
          have ha := Nat.div_mul_le_self a n
          have hb := Nat.div_mul_le_self t.sum n
          have hc : (a / n + t.sum / n) * n = a / n * n + t.sum / n * n := by ring
          omega
      omega

theorem zip_map_self (f : ℕ → ℕ) : ∀ (l : List ℕ),
    (l.map f).zip l = l.map (fun a => (f a, a))
  | [] => rfl
  | a :: t => by
      simp only [List.map_cons, List.zip_cons_cons, zip_map_self f t]

theorem base_le_size (k n s : ℕ) (hk : k ≤ n) : s * k / n ≤ s := by
  rcases Nat.eq_zero_or_pos n with hn | hn
  · subst hn
    simp [Nat.div_zero]
  · have h1 : s * k ≤ s * n := Nat.mul_le_mul_left s hk
    have h2 : s * k / n ≤ s * n / n := Nat.div_le_div_right h1
    rwa [Nat.mul_div_cancel s hn] at h2

theorem basesSum_le (sizes : List ℕ) (k n : ℕ) (hn : sizes.sum = n) (hnpos : 0 < n) :
    (sizes.map (fun s => s * k / n)).sum ≤ k := by
  have h0 : sizes.map (fun s => s * k / n) = (sizes.map (fun s => s * k)).map (fun a => a / n) := by
    rw [List.map_map]
    rfl
  have h2 : (sizes.map (fun s => s * k)).sum = sizes.sum * k := by
    have h3 := List.sum_map_mul_right sizes (fun b => b) k
    simpa using h3
  calc (sizes.map (fun s => s * k / n)).sum
      = ((sizes.map (fun s => s * k)).map (fun a => a / n)).sum := by rw [← h0]
    _ ≤ (sizes.map (fun s => s * k)).sum / n := sum_div_le n _
    _ = n * k / n := by rw [h2, hn]
    _ = k := by rw [Nat.mul_comm, Nat.mul_div_cancel k hnpos]

theorem allocateVal_length (sizes : List ℕ) (k n : ℕ) :
    (allocateVal sizes k n).length = sizes.length := by
  rw [allocateVal, addExtra_length, List.length_zip, List.length_map]
  exact min_self _

theorem allocateVal_le (sizes : List ℕ) (k n : ℕ) (hk : k ≤ n) :
    List.Forall₂ (fun a b => a ≤ b) (allocateVal sizes k n) sizes := by
  unfold allocateVal
  rw [zip_map_self]
  have hpt : ∀ q ∈ sizes.map (fun a => (a * k / n, a)), q.1 ≤ q.2 := by
    intro q hq
    obtain ⟨s, hs, rfl⟩ := List.mem_map.mp hq
    exact base_le_size k n s hk
  have h := addExtra_le (sizes.map (fun a => (a * k / n, a)))
      (k - (sizes.map (fun s => s * k / n)).sum) hpt
  have hsnd : (sizes.map (fun a => (a * k / n, a))).map (fun q => q.2) = sizes := by
    rw [List.map_map]
    exact List.map_id _
  rwa [hsnd] at h

theorem allocateVal_sum (sizes : List ℕ) (k n : ℕ) (hk : k ≤ n) (hn : sizes.sum = n) :
    (allocateVal sizes k n).sum = k := by
  have hbs : (sizes.map (fun s => s * k / n)).sum ≤ k := by
    rcases Nat.eq_zero_or_pos n with hn0 | hnpos
    · have hk0 : k = 0 := by omega
      subst hk0
      simp
    · exact basesSum_le sizes k n hn hnpos
  have hpt : ∀ q ∈ sizes.map (fun a => (a * k / n, a)), q.1 ≤ q.2 := by
    intro q hq
    obtain ⟨s, hs, rfl⟩ := List.mem_map.mp hq
    exact base_le_size k n s hk
  have hfst : (sizes.map (fun a => (a * k / n, a))).map (fun q => q.1) =
      sizes.map (fun s => s * k / n) := by
    rw [List.map_map]
    rfl
  have hsnd : (sizes.map (fun a => (a * k / n, a))).map (fun q => q.2) = sizes := by
    rw [List.map_map]
    exact List.map_id _
  have hcond : ((sizes.map (fun a => (a * k / n, a))).map (fun q => q.1)).sum +
      (k - (sizes.map (fun s => s * k / n)).sum) ≤
      ((sizes.map (fun a => (a * k / n, a))).map (fun q => q.2)).sum := by
    rw [hfst, hsnd, hn]
    omega
  have hsum := addExtra_sum (sizes.map (fun a => (a * k / n, a)))
      (k - (sizes.map (fun s => s * k / n)).sum) hpt hcond
  rw [hfst] at hsum
  unfold allocateVal
  rw [zip_map_self, hsum]
  omega

theorem flatten_take_length : ∀ {as : List ℕ} {gs : List (List ℕ)},
    List.Forall₂ (fun a g => a ≤ List.length g) as gs →
    ((gs.zip as).map (fun q => q.1.take q.2)).flatten.length = as.sum := by
  intro as gs h
  induction h with
  | nil => rfl
  | @cons a g as' gs' hag _ ih =>
      simp only [List.zip_cons_cons, List.map_cons, List.flatten_cons, List.length_append,
        List.sum_cons, ih, List.length_take]
      omega

theorem filterMap_get_range {α : Type} :
    ∀ (l : List α), (List.range l.length).filterMap (fun i => l.get? i) = l
  | [] => rfl
  | a :: t => by
      simp only [List.length_cons, List.range_succ_eq_map]
      show a :: List.filterMap (fun i => (a :: t).get? i) (List.map Nat.succ (List.range t.length))
          = a :: t
      rw [List.filterMap_map]
      exact congrArg (List.cons a) (filterMap_get_range t)

theorem split_indices_perm (p : ℚ) (seed : ℕ) (rows : List Review) :
    ((train_test_split p seed rows).1 ++ (train_test_split p seed rows).2).Perm
      (List.range rows.length) := by
  unfold train_test_split
  have h1 := flatten_drop_take_perm ((strataPerm seed rows).zip (strataAllocs p seed rows))
  have h2 : ((strataPerm seed rows).zip (strataAllocs p seed rows)).map (fun q => q.1) =
      strataPerm seed rows := by
    apply List.map_fst_zip
    rw [strataAllocs, allocateVal_length, List.length_map]
  rw [h2] at h1
  exact h1.trans (strataPerm_flatten_perm seed rows)

/-! ## Theorems: claims -/

/-- C1 (counterexample): on the empty sequence of rows the scorer does not
return a defined accuracy value: the division `... / len(results_df)`
raises `ZeroDivisionError` (embedded as `none`), so the boundary case of
zero rows is not handled with defined behavior. -/
theorem accuracy_empty_fails : accuracy [] = none := rfl

/-- C1 (amended): for every nonempty sequence of rows, the overall
accuracy equals the number of rows where predicted equals true divided by
the total number of rows; on the empty sequence the code raises a
divide-by-zero error instead of returning a value. -/
theorem accuracy_eq_ratio (rows : List ResultRow) (h : rows ≠ []) :
    accuracy rows =
      some (((rows.filter (fun r => r.pred == r.label)).length : ℚ) / (rows.length : ℚ)) := by
  have hne : rows.length ≠ 0 := fun h0 => h (List.length_eq_zero.mp h0)
  unfold accuracy
  rw [if_neg hne]
  congr 1
  have hpt : ∀ r : ResultRow, (r.pred == r.label) = isCorrect r := by
    intro r
    unfold isCorrect
    rw [Bool.eq_iff_iff]
    simp only [beq_iff_eq]
    exact eq_comm
  rw [List.filter_congr (fun r _ => hpt r), ← List.countP_eq_length_filter]

/-- C1 (witness). -/
theorem accuracy_eq_ratio_witness :
    exampleRows ≠ [] ∧
      accuracy exampleRows =
        some (((exampleRows.filter (fun r => r.pred == r.label)).length : ℚ) /
          (exampleRows.length : ℚ)) :=
  ⟨by decide, accuracy_eq_ratio exampleRows (by decide)⟩

/-- C2: for every sequence of rows and every category with at least one
row, the per-label accuracy computed by the grouped mean equals the mean
of the correctness flags restricted to rows whose true label equals that
category; on the spec example [(pos,pos), (neg,pos), (neg,neg)] the
per-label accuracy is 1/2 for "neg" and 1 for "pos". -/
theorem groupMean_eq_specMean :
    (∀ (rows : List ResultRow) (c : String), groupRows rows c ≠ [] →
        groupMeanCorrect rows c = some (specPerLabelMean rows c)) ∧
      groupMeanCorrect exampleRows "neg" = some (1/2) ∧
      groupMeanCorrect exampleRows "pos" = some 1 := by
  refine ⟨?_, ?_, ?_⟩
  · intro rows c h
    have hne : (groupRows rows c).length ≠ 0 := fun h0 => h (List.length_eq_zero.mp h0)
    unfold groupMeanCorrect specPerLabelMean
    rw [if_neg hne]
    congr 1
    rw [show (rows.filter (fun r => r.label == c)) = groupRows rows c from rfl, sum_correctFlag]
  · have h1 : List.countP isCorrect (groupRows exampleRows "neg") = 1 := by decide
    have h2 : (groupRows exampleRows "neg").length = 2 := by decide
    unfold groupMeanCorrect
    rw [h2, h1]
    norm_num
  · have h1 : List.countP isCorrect (groupRows exampleRows "pos") = 1 := by decide
    have h2 : (groupRows exampleRows "pos").length = 1 := by decide
    unfold groupMeanCorrect
    rw [h2, h1]
    norm_num

/-- C2 (witness). -/
theorem groupMean_eq_specMean_witness :
    groupRows exampleRows "neg" ≠ [] ∧
      groupMeanCorrect exampleRows "neg" = some (specPerLabelMean exampleRows "neg") :=
  ⟨by decide, groupMean_eq_specMean.1 exampleRows "neg" (by decide)⟩

/-- C10: the per-label table has exactly one row per label value present
in the evaluated slice — its keys are the distinct labels, without
repetition, and a label appears in the table iff some row carries it —
and every present label's group is nonempty, so no per-label mean divides
by zero: labels absent from the slice are silently omitted by the group-by
rather than causing an error. -/
theorem accuracy_df_rows (rows : List ResultRow) :
    (accuracy_df rows).map (fun e => e.1) = (rows.map (fun r => r.label)).dedup ∧
      ((accuracy_df rows).map (fun e => e.1)).Nodup ∧
      (∀ c : String,
        c ∈ (accuracy_df rows).map (fun e => e.1) ↔ c ∈ rows.map (fun r => r.label)) ∧
      ∀ c ∈ rows.map (fun r => r.label), 0 < (groupRows rows c).length := by
  have hmap : (accuracy_df rows).map (fun e => e.1) = (rows.map (fun r => r.label)).dedup := by
    rw [accuracy_df, List.map_map]
    exact List.map_id _
  refine ⟨hmap, ?_, ?_, ?_⟩
  · rw [hmap]; exact List.nodup_dedup _
  · intro c; rw [hmap]; exact List.mem_dedup
  · intro c hc
    obtain ⟨r, hr, hrc⟩ := List.mem_map.mp hc
    have hg : r ∈ groupRows rows c := by
      simp [groupRows, List.mem_filter, hr, hrc]
    exact List.length_pos_of_mem hg

/-- C10 (witness). -/
theorem accuracy_df_rows_witness :
    ("neg" ∈ exampleRows.map (fun r => r.label)) ∧ 0 < (groupRows exampleRows "neg").length :=
  ⟨by decide, (accuracy_df_rows exampleRows).2.2.2 "neg" (by decide)⟩

/-- C9: the environment check never halts or raises — for every
accelerator state the pipeline proceeds — and it prints the confirmation
when the accelerator is available and the warning when it is not. -/
theorem envCheck_graceful :
    (∀ b : Bool, (envCheckStep b).2 = true) ∧
      (envCheckStep true).1 = [gpuAvailableMsg] ∧
      (envCheckStep false).1 = [gpuWarningMsg] :=
  ⟨fun b => by cases b <;> rfl, rfl, rfl⟩

/-- C3 (counterexample): the claimed configuration does not hold as a
whole, because no early-stopping policy is configured: the `Trainer` is
built with an empty callbacks list, `EarlyStoppingCallback` being imported
but never attached. -/
theorem claimedTrainingConfig_false : ¬ claimedTrainingConfig := by
  intro h
  exact List.not_mem_nil _ h.2.2.2.2.2.2.2.2.2

/-- C3 (amended): the training configuration fixed at invocation includes
the learning rate, per-device train and eval batch sizes, the epoch count,
the weight-decay coefficient, a steps-based evaluate/save checkpoint
cadence, the retained-checkpoint cap, weighted F1 as the model-selection
metric and the policy to reload the best checkpoint at the end — but no
early-stopping policy: the trainer's callbacks list is empty. -/
theorem trainingConfig_items :
    (args.learning_rate = 1/100000 ∧
      args.per_device_train_batch_size = 32 ∧
      args.per_device_eval_batch_size = 32 ∧
      args.num_train_epochs = 1 ∧
      args.weight_decay = 1/100 ∧
      (args.evaluation_strategy = "steps" ∧ args.save_strategy = "steps") ∧
      args.save_total_limit = 2 ∧
      (args.metric_for_best_model = metric_choice ∧ metric_choice = "f1" ∧
        computeMetricsAverage = "weighted") ∧
      args.load_best_model_at_end = true) ∧
    trainerCallbacks = [] :=
  ⟨⟨by norm_num [args], rfl, rfl, rfl, by norm_num [args], ⟨rfl, rfl⟩, rfl,
    ⟨rfl, rfl, rfl⟩, rfl⟩, rfl⟩

/-- C6: for every tokenizer and every input string — the empty string and
arbitrarily long strings included — the tokenized record's token length is
at most the fixed maximum 512; it equals the minimum of 512 and the raw
encoding length, and never exceeds the raw encoding length, so no padding
is applied at this stage. -/
theorem tokenize_length_bounded (tok : String → List ℕ) (text : String) :
    (tokenizeTruncate tok text).length ≤ maxTokenLength ∧
      (tokenizeTruncate tok text).length = min maxTokenLength (tok text).length ∧
      (tokenizeTruncate tok text).length ≤ (tok text).length := by
  refine ⟨?_, ?_, ?_⟩
  · rw [tokenizeTruncate, List.length_take]
    exact min_le_left _ _
  · rw [tokenizeTruncate, List.length_take]
  · rw [tokenizeTruncate, List.length_take]
    exact min_le_right _ _

/-- C8: the tokenization mapper is pure — it is a function of the
tokenizer configuration and the input record alone — and idempotent:
applying it twice to the same record yields the same record as applying it
once, both record-wise and over a whole dataset split. -/
theorem preprocess_idempotent (tok : String → List ℕ) (r : TokenizedReview)
    (rows : List Review) :
    preprocess_function tok (preprocess_function tok r) = preprocess_function tok r ∧
      (tokenizeDataset tok rows).map (preprocess_function tok) = tokenizeDataset tok rows := by
  constructor
  · rfl
  · rw [tokenizeDataset, List.map_map]
    exact List.map_congr_left (fun a _ => rfl)

/-- C4: after the dataset-split step, for every source dataset the chosen
validation index set is disjoint from the chosen train index set, the
resulting validation and new train partitions together are a permutation
of (exactly) the original train partition, and the resulting test
partition equals the original test partition — no operation re-splits
test. -/
theorem splitStep_invariants (ds : DatasetSplits) :
    ((train_test_split splitProportion splitSeed ds.train).1).Disjoint
        ((train_test_split splitProportion splitSeed ds.train).2) ∧
      ((splitStep ds).validation ++ (splitStep ds).train).Perm ds.train ∧
      (splitStep ds).test = ds.test := by
  have hperm := split_indices_perm splitProportion splitSeed ds.train
  refine ⟨?_, ?_, rfl⟩
  · have hnd : ((train_test_split splitProportion splitSeed ds.train).1 ++
        (train_test_split splitProportion splitSeed ds.train).2).Nodup :=
      (hperm.nodup_iff).mpr (List.nodup_range _)
    exact (List.nodup_append.mp hnd).2.2
  · show (selectRows ds.train (train_test_split splitProportion splitSeed ds.train).2 ++
        selectRows ds.train (train_test_split splitProportion splitSeed ds.train).1).Perm ds.train
    have happ : selectRows ds.train (train_test_split splitProportion splitSeed ds.train).2 ++
        selectRows ds.train (train_test_split splitProportion splitSeed ds.train).1 =
        selectRows ds.train ((train_test_split splitProportion splitSeed ds.train).2 ++
          (train_test_split splitProportion splitSeed ds.train).1) :=
      (List.filterMap_append _ _ _).symm
    rw [happ]
    have hvt : ((train_test_split splitProportion splitSeed ds.train).2 ++
        (train_test_split splitProportion splitSeed ds.train).1).Perm
        (List.range ds.train.length) :=
      List.perm_append_comm.trans hperm
    have hsel := hvt.filterMap (fun i => ds.train.get? i)
    rwa [filterMap_get_range ds.train] at hsel

/-- C5: the splitter is deterministic and reproducible across runs — with
the seed supplied (as the source supplies seed=42), two runs under
arbitrarily different ambient generator states produce identical partition
assignments for the same (proportion, seed, source dataset). -/
theorem split_deterministic (p : ℚ) (s : ℕ) (rows : List Review) (g1 g2 : ℕ) :
    trainTestSplitRng p (some s) rows g1 = trainTestSplitRng p (some s) rows g2 := rfl

/-- C7: the split proportions are the fixed constants 90/10
(test_size = 1/10, so the train side keeps 9/10), and for every 1000-row
source train partition and every seed the resulting validation partition
has exactly 100 rows. -/
theorem split_size_fixed :
    splitProportion = 1/10 ∧ (1 - splitProportion) = 9/10 ∧
      ∀ (seed : ℕ) (rows : List Review), rows.length = 1000 →
        (train_test_split splitProportion seed rows).2.length = 100 := by
  refine ⟨by norm_num [splitProportion], by norm_num [splitProportion], ?_⟩
  intro seed rows hlen
  have hk : valSize splitProportion rows.length = 100 := by
    rw [hlen, valSize, splitProportion]
    norm_num
    rfl
  have hkle : valSize splitProportion rows.length ≤ rows.length := by
    rw [hk, hlen]
    omega
  have hsizes : ((strataPerm seed rows).map List.length).sum = rows.length :=
    strata_sizes_sum seed rows
  have hforall := allocateVal_le ((strataPerm seed rows).map List.length)
      (valSize splitProportion rows.length) rows.length hkle
  have hf2 : List.Forall₂ (fun a g => a ≤ List.length g)
      (strataAllocs splitProportion seed rows) (strataPerm seed rows) := by
    rw [strataAllocs]
    exact List.forall₂_map_right_iff.mp hforall
  have hlen2 := flatten_take_length hf2
  show (((strataPerm seed rows).zip (strataAllocs splitProportion seed rows)).map
      (fun q => q.1.take q.2)).flatten.length = 100
  rw [hlen2, strataAllocs, allocateVal_sum _ _ _ hkle hsizes, hk]

/-- C7 (witness). -/
theorem split_size_fixed_witness :
    (List.replicate 1000 ({ text := "r", label := 0 } : Review)).length = 1000 ∧
      (train_test_split splitProportion 42
        (List.replicate 1000 ({ text := "r", label := 0 } : Review))).2.length = 100 :=
  ⟨by rw [List.length_replicate], split_size_fixed.2.2 42 _ (by rw [List.length_replicate])⟩

end SentimentPipeline
